import Mathlib

/-!
# Verification of the crypto-trader strategy evaluation core

A shallow embedding of the repository's strategy-evaluation pipeline:
the indicator engine (`src/lib/indicators.ts`), the portfolio helpers
(`computePortfolioValue`, `computeCurrentWeights`, `computeRebalanceTrades`),
the weight calculator (`src/lib/strategy.ts`), the trade simulator
(`src/lib/backtesting/simulator.ts`), the candle-window helper
(`getRecentCandles` in `src/lib/backtesting/data-fetcher.ts`), the metrics
engine (`src/lib/evaluation/metrics.ts`) and the promotion state machine
(`src/lib/evaluation/promoter.ts` / `evaluator.ts`).

Modelling conventions:
* JavaScript IEEE-754 numbers are modelled as exact rationals `ℚ` (reals `ℝ`
  where a square root is required).  Statements about floating-point
  tolerances are read exactly.
* A JavaScript object used as a string-keyed dictionary is modelled as an
  association list `List (String × α)`; assignment keeps the position of an
  existing key and appends a fresh key, matching JS insertion order.
* `async` database and HTTP effects are modelled by explicit state passing:
  the candidate table is a `List Candidate`, the live configuration a
  `TradingConfig`, wall-clock reads a `now` parameter, and the paper-trading
  history an oracle `ℕ → PaperPerf`.
* ISO timestamp strings are modelled by their underlying epoch milliseconds
  (`ℤ`); the simulator's `timestamp` argument (epoch seconds as a string) by
  an integer number of seconds.
-/

/-- JS dictionary lookup `r[k]` (as `Option`). -/
def lookupRec {α : Type} (r : List (String × α)) (k : String) : Option α :=
  (r.find? (fun kv => kv.1 == k)).map (·.2)

/-- JS dictionary lookup with default, `r[k] ?? d`. -/
def getRec {α : Type} (r : List (String × α)) (k : String) (d : α) : α :=
  (lookupRec r k).getD d

/-- JS dictionary assignment `r[k] = v`: overwrite in place when the key
exists, append otherwise (JS object insertion order). -/
def setRec {α : Type} (r : List (String × α)) (k : String) (v : α) :
    List (String × α) :=
  if r.any (fun kv => kv.1 == k) then
    r.map (fun kv => if kv.1 == k then (k, v) else kv)
  else
    r ++ [(k, v)]

/-- A historical OHLC candle (`Candle` in `src/lib/coinbase.ts`).  Only the
fields the evaluation core reads are kept: `start` (epoch seconds, the code
applies `parseInt`) and `close` (the code applies `parseFloat`).  The unused
`open`/`high`/`low`/`volume` string fields are elided. -/
structure Candle where
  start : ℤ
  close : ℚ
deriving DecidableEq, Repr

/-! ## Indicator engine (`src/lib/indicators.ts`) -/

/-- One step of Wilder smoothing in `calculateRSI`'s second loop. -/
def wilderStep (period : ℚ) (p : ℚ × ℚ) (delta : ℚ) : ℚ × ℚ :=
  ((p.1 * (period - 1) + (if delta > 0 then delta else 0)) / period,
   (p.2 * (period - 1) + (if delta < 0 then -delta else 0)) / period)

/-- `calculateRSI(closes, period = 14)`: Wilder's smoothed RSI.  Fewer than
`period + 1` closes yields the neutral `50`; zero average loss yields `100`. -/
def calculateRSI (closes : List ℚ) (period : ℕ := 14) : ℚ :=
  if closes.length < period + 1 then 50 else
  let deltas := List.zipWith (fun a b => a - b) (closes.drop 1) closes
  let headDeltas := deltas.take period
  let gains := (headDeltas.map (fun d => if d > 0 then d else 0)).sum
  let losses := (headDeltas.map (fun d => if d < 0 then -d else 0)).sum
  let avg := (deltas.drop period).foldl (wilderStep period)
    (gains / period, losses / period)
  if avg.2 = 0 then 100 else 100 - 100 / (1 + avg.1 / avg.2)

/-- `calculate4hMomentum(candles)`: percent change between the most recent
close (`recent[0]`, index 0 is the newest candle) and the close up to 6
candles back; `0` with fewer than two candles or a zero reference close. -/
def calculate4hMomentum (candles : List Candle) : ℚ :=
  let recent := candles.take 6
  if recent.length < 2 then 0 else
  let lastClose := (recent.getD 0 ⟨0, 0⟩).close
  let firstClose := ((recent.getLast?).getD ⟨0, 0⟩).close
  if firstClose = 0 then 0 else (lastClose - firstClose) / firstClose * 100

/-! ## Portfolio helpers (`computePortfolioValue`, `computeCurrentWeights`,
`computeRebalanceTrades`) -/

/-- The `COIN_FOR_PAIR` table. -/
def coinForPair (pair : String) : Option String :=
  if pair = "BTC-EUR" then some "BTC"
  else if pair = "ETH-EUR" then some "ETH"
  else if pair = "SOL-EUR" then some "SOL"
  else none

/-- `computePortfolioValue(balances, prices)`: EUR balance plus the value of
every priced coin holding (a missing or zero balance contributes zero, as in
the source's truthiness guard). -/
def computePortfolioValue (balances prices : List (String × ℚ)) : ℚ :=
  prices.foldl
    (fun total kv =>
      match coinForPair kv.1 with
      | some coin => total + getRec balances coin 0 * kv.2
      | none => total)
    (getRec balances "EUR" 0)

/-- `computeCurrentWeights(balances, prices)`: empty map when the portfolio
value is non-positive, else per-pair fraction of total value. -/
def computeCurrentWeights (balances prices : List (String × ℚ)) :
    List (String × ℚ) :=
  let totalValue := computePortfolioValue balances prices
  if totalValue ≤ 0 then [] else
  prices.foldl
    (fun weights kv =>
      match coinForPair kv.1 with
      | some coin =>
          setRec weights kv.1 (getRec balances coin 0 * kv.2 / totalValue)
      | none => weights)
    []

/-- Trade side. -/
inductive Side where
  | BUY
  | SELL
deriving DecidableEq, Repr

/-- A planned rebalance leg (`RebalanceTrade`). -/
structure RebalanceTrade where
  pair : String
  side : Side
  amountEur : ℚ
deriving DecidableEq, Repr

/-- `computeRebalanceTrades`: for each pair of the target-weight map, the EUR
delta to the target allocation; skip if `|deltaEur| < minTradeSize`, clamp to
`totalValue * maxTradePercent`, emit BUY for positive delta else SELL.
The `prices` argument is unused, as in the source. -/
def computeRebalanceTrades (currentWeights targetWeights : List (String × ℚ))
    (totalValue : ℚ) (_prices : List (String × ℚ))
    (minTradeSize maxTradePercent : ℚ) : List RebalanceTrade :=
  let maxSize := totalValue * maxTradePercent
  targetWeights.foldl
    (fun trades kv =>
      let current := getRec currentWeights kv.1 0
      let target := kv.2
      let deltaEur := (target - current) * totalValue
      if |deltaEur| < minTradeSize then trades
      else
        trades ++ [{ pair := kv.1,
                     side := if deltaEur > 0 then Side.BUY else Side.SELL,
                     amountEur := min |deltaEur| maxSize }])
    []

/-! ## Weight calculator (`src/lib/strategy.ts`) -/

/-- `normalizeWeights(weights, pairs)`: total over the configured pairs; a
zero total falls back to equal weighting, otherwise divide each pair's
weight by the total. -/
def normalizeWeights (weights : List (String × ℚ)) (pairs : List String) :
    List (String × ℚ) :=
  let total := pairs.foldl (fun sum p => sum + getRec weights p 0) 0
  if total = 0 then
    pairs.foldl (fun result p => setRec result p (1 / pairs.length)) []
  else
    pairs.foldl (fun result p => setRec result p (getRec weights p 0 / total)) []

/-- The body of `calculateTargetWeights`'s per-pair loop: base weight (default
`1 / pairs.length`), momentum tilt clamped to ±0.15, RSI multiplier at the
hardcoded 70/30 thresholds, floored at 0. -/
def rawStrategyWeight (pairs : List String)
    (candles : List (String × List Candle))
    (baseWeights : List (String × ℚ)) (pair : String) : ℚ :=
  let weight := getRec baseWeights pair (1 / pairs.length)
  let pairCandles := getRec candles pair []
  let momentum := calculate4hMomentum pairCandles
  let momentumTilt := max (-(15 : ℚ)/100) (min ((15 : ℚ)/100) (momentum / 100))
  let weight := weight + momentumTilt
  let closes := pairCandles.map (·.close)
  let rsi := calculateRSI closes
  let weight :=
    if rsi > 70 then weight * (8/10)
    else if rsi < 30 then weight * (12/10)
    else weight
  max 0 weight

/-- `calculateTargetWeights` (`src/lib/strategy.ts`): advisory (`aiWeights`)
override when present and non-empty, else the indicator-based raw weights,
both normalized over the pairs. -/
def calculateTargetWeights (pairs : List String)
    (_prices : List (String × ℚ)) (candles : List (String × List Candle))
    (baseWeights : List (String × ℚ))
    (aiWeights : Option (List (String × ℚ))) : List (String × ℚ) :=
  match aiWeights with
  | some w =>
      if w.length > 0 then normalizeWeights w pairs
      else
        normalizeWeights
          (pairs.foldl
            (fun raw pair =>
              setRec raw pair (rawStrategyWeight pairs candles baseWeights pair))
            []) pairs
  | none =>
      normalizeWeights
        (pairs.foldl
          (fun raw pair =>
            setRec raw pair (rawStrategyWeight pairs candles baseWeights pair))
          []) pairs

/-! ## Trade simulator (`src/lib/backtesting/simulator.ts`) -/

/-- `StrategyParams` (`src/lib/backtesting/types.ts`). -/
structure StrategyParams where
  maxTradePercent : ℚ
  stopLossPercent : ℚ
  cooldownMinutes : ℤ
  rsiOversoldThreshold : ℚ
  rsiOverboughtThreshold : ℚ
  baseWeights : List (String × ℚ)
deriving DecidableEq, Repr

/-- `SimulatorConfig`. -/
structure SimulatorConfig where
  pairs : List String
  strategyParams : StrategyParams
  minTradeSizeEur : ℚ
deriving DecidableEq, Repr

/-- `SimulatedTrade` (timestamps as epoch milliseconds). -/
structure SimulatedTrade where
  timestamp : ℤ
  pair : String
  side : Side
  amountEur : ℚ
  price : ℚ
  reason : String
deriving DecidableEq, Repr

/-- `PortfolioSnapshot` (timestamps as epoch milliseconds). -/
structure PortfolioSnapshot where
  timestamp : ℤ
  balances : List (String × ℚ)
  totalValueEur : ℚ
  weights : List (String × ℚ)
deriving DecidableEq, Repr

/-- `SimulatorState`. -/
structure SimulatorState where
  balances : List (String × ℚ)
  lastTradeTime : Option ℤ
  peakValueEur : ℚ
  trades : List SimulatedTrade
  snapshots : List PortfolioSnapshot
deriving DecidableEq, Repr

/-- The `TradeSimulator` constructor's initial state. -/
def initialSimulatorState (initialCapitalEur : ℚ) : SimulatorState :=
  { balances := [("EUR", initialCapitalEur), ("BTC", 0), ("ETH", 0), ("SOL", 0)],
    lastTradeTime := none,
    peakValueEur := initialCapitalEur,
    trades := [],
    snapshots := [] }

namespace TradeSimulator

/-- `TradeSimulator.calculateTargetWeights`: per-pair raw weight with the
configurable RSI thresholds, normalized by the sum of the raw map's values
(equal weighting when that sum is zero). -/
def calculateTargetWeights (config : SimulatorConfig)
    (_prices : List (String × ℚ)) (candlesMap : List (String × List Candle)) :
    List (String × ℚ) :=
  let params := config.strategyParams
  let raw := config.pairs.foldl
    (fun raw pair =>
      let weight := getRec params.baseWeights pair (1 / config.pairs.length)
      let candles := getRec candlesMap pair []
      let momentum := calculate4hMomentum candles
      let momentumTilt :=
        max (-(15 : ℚ)/100) (min ((15 : ℚ)/100) (momentum / 100))
      let weight := weight + momentumTilt
      let closes := candles.map (·.close)
      let rsi := calculateRSI closes
      let weight :=
        if rsi > params.rsiOverboughtThreshold then weight * (8/10)
        else if rsi < params.rsiOversoldThreshold then weight * (12/10)
        else weight
      setRec raw pair (max 0 weight))
    []
  let total := (raw.map (·.2)).sum
  if total = 0 then
    config.pairs.foldl
      (fun result p => setRec result p (1 / config.pairs.length)) []
  else
    config.pairs.foldl
      (fun result p => setRec result p (getRec raw p 0 / total)) []

/-- `TradeSimulator.executeTrade`: 0.1% slippage against the trader, balance
update, last-trade-time update, trade record append.  Unknown pairs are
ignored (`COIN_FOR_PAIR` guard). -/
def executeTrade (state : SimulatorState) (timestamp : ℤ) (pair : String)
    (side : Side) (amountEur price : ℚ) : SimulatorState :=
  match coinForPair pair with
  | none => state
  | some coin =>
    let slippage : ℚ := 1/1000
    let effectivePrice :=
      if side = Side.BUY then price * (1 + slippage) else price * (1 - slippage)
    let balances :=
      if side = Side.BUY then
        let b := setRec state.balances "EUR" (getRec state.balances "EUR" 0 - amountEur)
        setRec b coin (getRec b coin 0 + amountEur / effectivePrice)
      else
        let b := setRec state.balances "EUR" (getRec state.balances "EUR" 0 + amountEur)
        setRec b coin (getRec b coin 0 - amountEur / effectivePrice)
    { state with
      balances := balances,
      lastTradeTime := some (timestamp * 1000),
      trades := state.trades ++
        [{ timestamp := timestamp * 1000, pair := pair, side := side,
           amountEur := amountEur, price := effectivePrice,
           reason := "backtest_rebalance" }] }

/-- `TradeSimulator.recordSnapshot`. -/
def recordSnapshot (state : SimulatorState) (timestamp : ℤ)
    (prices : List (String × ℚ)) : SimulatorState :=
  let totalValue := computePortfolioValue state.balances prices
  let currentWeights := computeCurrentWeights state.balances prices
  { state with
    snapshots := state.snapshots ++
      [{ timestamp := timestamp * 1000, balances := state.balances,
         totalValueEur := totalValue, weights := currentWeights }] }

/-- `TradeSimulator.processCandle`: peak update, drawdown gate at the fixed
10% threshold (snapshot-only when hit), cooldown gate (a truthy
`lastTradeTime`, i.e. non-null and non-zero, within the cooldown window is
snapshot-only), else target weights, rebalance planning, simulated execution
of each planned leg, and a snapshot. -/
def processCandle (config : SimulatorConfig) (state : SimulatorState)
    (timestamp : ℤ) (prices : List (String × ℚ))
    (candlesMap : List (String × List Candle)) : SimulatorState :=
  let timestampMs := timestamp * 1000
  let params := config.strategyParams
  let totalValue := computePortfolioValue state.balances prices
  let state := { state with peakValueEur := max state.peakValueEur totalValue }
  let drawdown := (state.peakValueEur - totalValue) / state.peakValueEur
  if drawdown ≥ 1/10 then
    recordSnapshot state timestamp prices
  else if (match state.lastTradeTime with
           | some t => decide (t ≠ 0) && decide (timestampMs - t < params.cooldownMinutes * 60 * 1000)
           | none => false) then
    recordSnapshot state timestamp prices
  else
    let targetWeights := calculateTargetWeights config prices candlesMap
    let currentWeights := computeCurrentWeights state.balances prices
    let trades := computeRebalanceTrades currentWeights targetWeights totalValue
      prices config.minTradeSizeEur params.maxTradePercent
    let state := trades.foldl
      (fun s t => executeTrade s timestamp t.pair t.side t.amountEur (getRec prices t.pair 0))
      state
    recordSnapshot state timestamp prices

end TradeSimulator

/-- One tick of driver input: the timestamp (epoch seconds), the per-pair
price cross-section and the per-pair recent-candle windows, as assembled by
`runBacktest`'s loop. -/
structure Tick where
  timestamp : ℤ
  prices : List (String × ℚ)
  candlesMap : List (String × List Candle)

/-- Driving the simulator through a sequence of ticks (the `runBacktest`
loop's calls to `processCandle`). -/
def runSimulator (config : SimulatorConfig) (initialCapitalEur : ℚ)
    (ticks : List Tick) : SimulatorState :=
  ticks.foldl
    (fun st tick =>
      TradeSimulator.processCandle config st tick.timestamp tick.prices tick.candlesMap)
    (initialSimulatorState initialCapitalEur)

/-! ## Candle windows (`getRecentCandles` in
`src/lib/backtesting/data-fetcher.ts`) -/

/-- The loop of `getRecentCandles`: scan the (descending-ordered) candle list,
collect candles with `start <= timestamp`, stop as soon as `count` have been
collected. -/
def grcLoop (ts : ℤ) (count : ℕ) : List Candle → List Candle → List Candle
  | acc, [] => acc
  | acc, c :: rest =>
    if c.start ≤ ts then
      let acc := acc ++ [c]
      if count ≤ acc.length then acc else grcLoop ts count acc rest
    else
      grcLoop ts count acc rest

/-- `getRecentCandles(candles, timestamp, count)`. -/
def getRecentCandles (candles : List Candle) (timestamp : ℤ) (count : ℕ) :
    List Candle :=
  grcLoop timestamp count [] candles

/-! ## Metrics engine (`src/lib/evaluation/metrics.ts`) -/

/-- `calculateCombinedScore(totalReturn, sharpeRatio, maxDrawdown, winRate)`:
each component normalized to `[0,1]` (return over `[-0.5, 1]`, Sharpe over
`[-1, 3]`, drawdown inverted over `[0, 0.5]`, win rate as-is), then combined
with weights 0.30 / 0.30 / 0.25 / 0.15. -/
def calculateCombinedScore (totalReturn sharpeRatio maxDrawdown winRate : ℚ) :
    ℚ :=
  let normalizedReturn := max 0 (min 1 ((totalReturn + 5/10) / (15/10)))
  let normalizedSharpe := max 0 (min 1 ((sharpeRatio + 1) / 4))
  let normalizedDrawdown := max 0 (min 1 (1 - maxDrawdown * 2))
  let normalizedWinRate := max 0 (min 1 winRate)
  normalizedReturn * (3/10) + normalizedSharpe * (3/10) +
    normalizedDrawdown * (25/100) + normalizedWinRate * (15/100)

/-- Clamping to `[0,1]`, as the claim's `clamp01`. -/
def clamp01 (x : ℚ) : ℚ := max 0 (min 1 x)

/-- The combined score exactly as the specification words it:
`0.30 * clamp01((totalReturn + 0.5) / 1.5) + 0.30 * clamp01((sharpe + 1) / 4)
+ 0.25 * clamp01(1 - 2 * maxDrawdown) + 0.15 * clamp01(winRate)`. -/
def combinedScoreSpec (totalReturn sharpeRatio maxDrawdown winRate : ℚ) : ℚ :=
  (3/10) * clamp01 ((totalReturn + 5/10) / (15/10)) +
  (3/10) * clamp01 ((sharpeRatio + 1) / 4) +
  (25/100) * clamp01 (1 - 2 * maxDrawdown) +
  (15/100) * clamp01 winRate

/-- The return sequence of `calculateSharpeRatio`'s first loop: the
fractional return between each pair of consecutive snapshot values whose
previous value is positive. -/
noncomputable def snapshotReturns : List ℝ → List ℝ
  | [] => []
  | [_] => []
  | a :: b :: rest =>
      (if 0 < a then [(b - a) / a] else []) ++ snapshotReturns (b :: rest)

/-- Mean of a list of returns (`0/0 = 0` for the empty list, which the source
never reaches because it returns early). -/
noncomputable def listMean (l : List ℝ) : ℝ := l.sum / l.length

/-- Population standard deviation of a list of returns. -/
noncomputable def listStdDev (l : List ℝ) : ℝ :=
  Real.sqrt (((l.map (fun r => (r - listMean l) ^ 2)).sum) / l.length)

/-- `calculateSharpeRatio(snapshots)` on the sequence of snapshot
`totalValueEur` values: zero for fewer than two snapshots or no usable
returns; `3` (positive mean) or `0` at zero standard deviation; otherwise
`mean / stddev` annualized by `sqrt(6 * 365)` and clamped to `[-3, 3]`. -/
noncomputable def calculateSharpeRatio (values : List ℝ) : ℝ :=
  if values.length < 2 then 0 else
  let returns := snapshotReturns values
  if returns.length = 0 then 0 else
  let meanReturn := listMean returns
  let stdDev := listStdDev returns
  if stdDev = 0 then (if 0 < meanReturn then 3 else 0) else
  max (-3) (min 3 (meanReturn / stdDev * Real.sqrt (6 * 365)))

/-- A snapshot-value sequence with a constant fractional return `r` per step:
`geomSeq v r n = [v, v*(1+r), v*(1+r)^2, ...]` of length `n`. -/
def geomSeq (v r : ℝ) : ℕ → List ℝ
  | 0 => []
  | n + 1 => v :: geomSeq (v * (1 + r)) r n

/-! ## Promotion state machine (`src/lib/evaluation/promoter.ts`,
`src/lib/evaluation/evaluator.ts`) -/

/-- `TradingConfig` (`src/lib/store.ts`). -/
structure TradingConfig where
  enabled : Bool
  pairs : List String
  baseWeights : List (String × ℚ)
  maxTradePercent : ℚ
  minTradeSizeEur : ℚ
  cooldownMinutes : ℤ
  stopLossPercent : ℚ
  maxDrawdownPercent : ℚ
  aiEnabled : Bool
deriving DecidableEq, Repr

/-- Candidate lifecycle status. -/
inductive CandidateStatus where
  | paper_testing
  | promoted
  | rejected
deriving DecidableEq, Repr

/-- `StrategyCandidate` (`src/lib/backtesting/types.ts`); `createdAt` is not
read by the promotion logic and is elided. -/
structure Candidate where
  id : ℕ
  strategyParams : StrategyParams
  backtestScore : Option ℚ
  paperScore : Option ℚ
  paperDaysTested : ℤ
  status : CandidateStatus
  promotedAt : Option ℤ
deriving DecidableEq, Repr

/-- The promotion criteria record (`DEFAULT_PROMOTION_CRITERIA`'s shape). -/
structure PromotionCriteria where
  minBacktestScore : ℚ
  minPaperDays : ℤ
  minPaperScore : ℚ
  maxPaperDrawdown : ℚ
deriving DecidableEq, Repr

/-- The result of `evaluatePaperPerformance` for one candidate: its combined
paper score, the number of days tested and the paper max drawdown.  The
paper-trading history behind it is external data, so `checkAndPromote` is
modelled over an arbitrary oracle `ℕ → PaperPerf` from candidate ids. -/
structure PaperPerf where
  score : ℚ
  daysTested : ℤ
  maxDrawdown : ℚ
deriving DecidableEq, Repr

/-- `meetsPromotionCriteria`: one reason per violated threshold (the source's
numeric interpolation inside the message strings is elided); eligible iff the
reason list is empty. -/
def meetsPromotionCriteria (backtestScore paperScore : ℚ)
    (paperDaysTested : ℤ) (paperMaxDrawdown : ℚ)
    (criteria : PromotionCriteria) : Bool × List String :=
  let reasons :=
    (if backtestScore < criteria.minBacktestScore then
      ["Backtest score below minimum"] else []) ++
    (if paperDaysTested < criteria.minPaperDays then
      ["Paper days tested below minimum"] else []) ++
    (if paperScore < criteria.minPaperScore then
      ["Paper score below minimum"] else []) ++
    (if paperMaxDrawdown > criteria.maxPaperDrawdown then
      ["Paper drawdown above maximum"] else [])
  (reasons.isEmpty, reasons)

/-- `updateCandidatePaperResults`: persist `paperScore` and `paperDaysTested`
on every row with the given id. -/
def updateCandidatePaperResults (candidates : List Candidate) (id : ℕ)
    (paperScore : ℚ) (paperDaysTested : ℤ) : List Candidate :=
  candidates.map (fun c =>
    if c.id = id then
      { c with paperScore := some paperScore, paperDaysTested := paperDaysTested }
    else c)

/-- `updateCandidateStatus(id, "promoted")`: set status and the promotion
timestamp on every row with the given id. -/
def markPromoted (candidates : List Candidate) (id : ℕ) (now : ℤ) :
    List Candidate :=
  candidates.map (fun c =>
    if c.id = id then
      { c with status := CandidateStatus.promoted, promotedAt := some now }
    else c)

/-- `promoteStrategy`'s configuration update: the candidate's tunable
parameters overwrite `maxTradePercent`, `stopLossPercent`, `cooldownMinutes`
and `baseWeights`; the spread `...currentConfig` keeps every other field. -/
def promoteStrategyConfig (currentConfig : TradingConfig)
    (params : StrategyParams) : TradingConfig :=
  { currentConfig with
    maxTradePercent := params.maxTradePercent,
    stopLossPercent := params.stopLossPercent,
    cooldownMinutes := params.cooldownMinutes,
    baseWeights := params.baseWeights }

/-- The candidate loop of `checkAndPromote`: for each filtered candidate in
order, persist its fresh paper results, then — on the first one meeting the
criteria — apply `promoteStrategy` (configuration overwrite plus status
transition) and stop. -/
def promoteLoop (criteria : PromotionCriteria) (now : ℤ)
    (perf : ℕ → PaperPerf) :
    List Candidate → TradingConfig → List Candidate →
    List Candidate × TradingConfig × Option ℕ
  | candidates, config, [] => (candidates, config, none)
  | candidates, config, c :: rest =>
    let paperPerformance := perf c.id
    let candidates := updateCandidatePaperResults candidates c.id
      paperPerformance.score paperPerformance.daysTested
    if (meetsPromotionCriteria (c.backtestScore.getD 0) paperPerformance.score
        paperPerformance.daysTested paperPerformance.maxDrawdown criteria).1 then
      (markPromoted candidates c.id now,
       promoteStrategyConfig config c.strategyParams,
       some c.id)
    else
      promoteLoop criteria now perf candidates config rest

/-- `checkAndPromote(criteria)` as a state transformer on the candidate table
and the live configuration: filter to `paper_testing` candidates with a
non-null backtest score, then run the promotion loop.  The "best candidate
not yet eligible" branch of the source only reads state to build the returned
report, so it does not appear in the state transition. -/
def checkAndPromote (criteria : PromotionCriteria) (now : ℤ)
    (perf : ℕ → PaperPerf) (candidates : List Candidate)
    (config : TradingConfig) : List Candidate × TradingConfig × Option ℕ :=
  let eligibleCandidates := candidates.filter
    (fun c => c.status = CandidateStatus.paper_testing ∧ c.backtestScore ≠ none)
  promoteLoop criteria now perf candidates config eligibleCandidates

/-! ## Concrete scenarios used by the theorems -/

/-- Strategy parameters shared by the concrete scenarios: 20% max trade, 5%
stop loss, zero cooldown, the default 30/70 RSI thresholds. -/
def demoParams : StrategyParams :=
  { maxTradePercent := 2/10, stopLossPercent := 5/100, cooldownMinutes := 0,
    rsiOversoldThreshold := 30, rsiOverboughtThreshold := 70,
    baseWeights := [("BTC-EUR", 1/3), ("ETH-EUR", 1/3), ("SOL-EUR", 1/3)] }

/-- Three-pair simulator configuration with the driver's hardcoded
`MIN_TRADE_SIZE_EUR = 5`. -/
def demoConfig : SimulatorConfig :=
  { pairs := ["BTC-EUR", "ETH-EUR", "SOL-EUR"],
    strategyParams := demoParams,
    minTradeSizeEur := 5 }

/-- A single-candle history closing at `p` (neutral RSI, zero momentum). -/
def candle1 (p : ℚ) : List Candle := [{ start := 0, close := p }]

/-- Tick with all three pairs priced at 100. -/
def tickFlat : Tick :=
  { timestamp := 1,
    prices := [("BTC-EUR", 100), ("ETH-EUR", 100), ("SOL-EUR", 100)],
    candlesMap := [("BTC-EUR", candle1 100), ("ETH-EUR", candle1 100),
                   ("SOL-EUR", candle1 100)] }

/-- Tick where BTC has rallied twentyfold while ETH and SOL are unchanged. -/
def tickBtcRally : Tick :=
  { timestamp := 2,
    prices := [("BTC-EUR", 2000), ("ETH-EUR", 100), ("SOL-EUR", 100)],
    candlesMap := [("BTC-EUR", candle1 2000), ("ETH-EUR", candle1 100),
                   ("SOL-EUR", candle1 100)] }

/-- Single-pair configuration fully allocated to BTC. -/
def btcOnlyConfig : SimulatorConfig :=
  { pairs := ["BTC-EUR"],
    strategyParams := { demoParams with baseWeights := [("BTC-EUR", 1)] },
    minTradeSizeEur := 5 }

/-- Single-pair tick at BTC price `p` and timestamp `ts`. -/
def btcTick (ts : ℤ) (p : ℚ) : Tick :=
  { timestamp := ts, prices := [("BTC-EUR", p)],
    candlesMap := [("BTC-EUR", candle1 p)] }

/-- The three-tick crash-and-recover run: buy in at 100, crash to 10 (an 18%
drawdown), recover to 150. -/
def crashRecoverTicks : List Tick := [btcTick 1 100, btcTick 2 10, btcTick 3 150]

/-- Configuration with `maxTradePercent = 0` and minimum trade size 0. -/
def zeroTradeConfig : SimulatorConfig :=
  { pairs := ["BTC-EUR", "ETH-EUR", "SOL-EUR"],
    strategyParams := { demoParams with maxTradePercent := 0, cooldownMinutes := 30 },
    minTradeSizeEur := 0 }

/-- Descending-ordered candle history (most recent first), the order the data
fetcher produces. -/
def demoCandles : List Candle :=
  [{ start := 30, close := 3 }, { start := 20, close := 2 },
   { start := 10, close := 1 }]

/-- The default promotion criteria (`DEFAULT_PROMOTION_CRITERIA`). -/
def demoCriteria : PromotionCriteria :=
  { minBacktestScore := 6/10, minPaperDays := 7, minPaperScore := 55/100,
    maxPaperDrawdown := 8/100 }

/-- A constant paper-performance oracle that passes every threshold. -/
def demoPerf : ℕ → PaperPerf := fun _ => { score := 7/10, daysTested := 10, maxDrawdown := 2/100 }

/-- A single paper-testing candidate. -/
def demoCandidate : Candidate :=
  { id := 1, strategyParams := demoParams, backtestScore := some (7/10),
    paperScore := none, paperDaysTested := 0,
    status := CandidateStatus.paper_testing, promotedAt := none }

/-- The default live trading configuration (`DEFAULT_CONFIG`). -/
def demoTradingConfig : TradingConfig :=
  { enabled := true, pairs := ["BTC-EUR", "ETH-EUR", "SOL-EUR"],
    baseWeights := [("BTC-EUR", 1/3), ("ETH-EUR", 1/3), ("SOL-EUR", 1/3)],
    maxTradePercent := 2/10, minTradeSizeEur := 5, cooldownMinutes := 30,
    stopLossPercent := 5/100, maxDrawdownPercent := 1/10, aiEnabled := true }

/-! ## Theorems -/

/-- Helper: `clamp01` is non-negative. -/
theorem clamp01_nonneg (x : ℚ) : 0 ≤ clamp01 x := le_max_left 0 _

/-- Helper: `clamp01` is at most one. -/
theorem clamp01_le_one (x : ℚ) : clamp01 x ≤ 1 :=
  max_le (by norm_num) (min_le_left 1 x)

/-- C5: for every input quadruple, `calculateCombinedScore` equals
`0.30 * clamp01((totalReturn + 0.5) / 1.5) + 0.30 * clamp01((sharpe + 1) / 4)
+ 0.25 * clamp01(1 - 2 * maxDrawdown) + 0.15 * clamp01(winRate)`, and the
result always lies in `[0, 1]`. -/
theorem combinedScore_matches_spec_and_bounded
    (totalReturn sharpeRatio maxDrawdown winRate : ℚ) :
    calculateCombinedScore totalReturn sharpeRatio maxDrawdown winRate =
      combinedScoreSpec totalReturn sharpeRatio maxDrawdown winRate ∧
    0 ≤ calculateCombinedScore totalReturn sharpeRatio maxDrawdown winRate ∧
    calculateCombinedScore totalReturn sharpeRatio maxDrawdown winRate ≤ 1 := by
  have hspec : calculateCombinedScore totalReturn sharpeRatio maxDrawdown winRate =
      combinedScoreSpec totalReturn sharpeRatio maxDrawdown winRate := by
    simp only [calculateCombinedScore, combinedScoreSpec, clamp01]
    ring_nf
  refine ⟨hspec, ?_, ?_⟩ <;> rw [hspec] <;>
    · simp only [combinedScoreSpec]
      have h1 := clamp01_nonneg ((totalReturn + 5/10) / (15/10))
      have h2 := clamp01_le_one ((totalReturn + 5/10) / (15/10))
      have h3 := clamp01_nonneg ((sharpeRatio + 1) / 4)
      have h4 := clamp01_le_one ((sharpeRatio + 1) / 4)
      have h5 := clamp01_nonneg (1 - 2 * maxDrawdown)
      have h6 := clamp01_le_one (1 - 2 * maxDrawdown)
      have h7 := clamp01_nonneg winRate
      have h8 := clamp01_le_one winRate
      linarith

/-- C9: `promoteStrategy`'s configuration update replaces exactly
`maxTradePercent`, `stopLossPercent`, `cooldownMinutes` and `baseWeights`
with the candidate's parameters and leaves every other field — `enabled`,
`pairs`, `minTradeSizeEur`, `maxDrawdownPercent`, `aiEnabled` — unchanged. -/
theorem promoteStrategyConfig_frame (cfg : TradingConfig) (p : StrategyParams) :
    (promoteStrategyConfig cfg p).maxTradePercent = p.maxTradePercent ∧
    (promoteStrategyConfig cfg p).stopLossPercent = p.stopLossPercent ∧
    (promoteStrategyConfig cfg p).cooldownMinutes = p.cooldownMinutes ∧
    (promoteStrategyConfig cfg p).baseWeights = p.baseWeights ∧
    (promoteStrategyConfig cfg p).enabled = cfg.enabled ∧
    (promoteStrategyConfig cfg p).pairs = cfg.pairs ∧
    (promoteStrategyConfig cfg p).minTradeSizeEur = cfg.minTradeSizeEur ∧
    (promoteStrategyConfig cfg p).maxDrawdownPercent = cfg.maxDrawdownPercent ∧
    (promoteStrategyConfig cfg p).aiEnabled = cfg.aiEnabled :=
  ⟨rfl, rfl, rfl, rfl, rfl, rfl, rfl, rfl, rfl⟩

/-- C2: the simulator is deterministic — `processCandle` is a pure function
of the simulator state and the `(timestamp, prices, recentCandles)`
arguments, so two runs from identical state with identical arguments yield
identical trade and snapshot sequences. -/
theorem processCandle_deterministic (config : SimulatorConfig)
    (state : SimulatorState) (timestamp : ℤ) (prices : List (String × ℚ))
    (candlesMap : List (String × List Candle)) (s₁ s₂ : SimulatorState)
    (h₁ : s₁ = TradeSimulator.processCandle config state timestamp prices candlesMap)
    (h₂ : s₂ = TradeSimulator.processCandle config state timestamp prices candlesMap) :
    s₁.trades = s₂.trades ∧ s₁.snapshots = s₂.snapshots := by
  subst h₁; subst h₂; exact ⟨rfl, rfl⟩

/-- Witness for C2 at a concrete state and tick. -/
theorem processCandle_deterministic_witness :
    (TradeSimulator.processCandle demoConfig (initialSimulatorState 1000) 1
        tickFlat.prices tickFlat.candlesMap).trades =
      (TradeSimulator.processCandle demoConfig (initialSimulatorState 1000) 1
        tickFlat.prices tickFlat.candlesMap).trades ∧
    (TradeSimulator.processCandle demoConfig (initialSimulatorState 1000) 1
        tickFlat.prices tickFlat.candlesMap).snapshots =
      (TradeSimulator.processCandle demoConfig (initialSimulatorState 1000) 1
        tickFlat.prices tickFlat.candlesMap).snapshots :=
  processCandle_deterministic demoConfig (initialSimulatorState 1000) 1
    tickFlat.prices tickFlat.candlesMap _ _ rfl rfl

unseal Rat.add Rat.mul Rat.inv Rat.sub in
/-- C1: evaluating the simulator on the crash-and-recover series.  At the
second tick the observed drawdown is at least 10%, so that tick is
snapshot-only — but once the price recovers, the third tick executes a
further trade: the drawdown pause is re-evaluated from `(peak, total)` each
tick and is not terminal for the run, unlike the sticky `drawdownPaused`
flag of the live and paper loops. -/
theorem drawdownPause_not_terminal :
    (runSimulator btcOnlyConfig 1000 [btcTick 1 100]).trades.length = 1 ∧
    (runSimulator btcOnlyConfig 1000 [btcTick 1 100, btcTick 2 10]).trades.length = 1 ∧
    (1/10 : ℚ) ≤
      ((runSimulator btcOnlyConfig 1000 [btcTick 1 100, btcTick 2 10]).peakValueEur -
          computePortfolioValue
            (runSimulator btcOnlyConfig 1000 [btcTick 1 100, btcTick 2 10]).balances
            [("BTC-EUR", 10)]) /
        (runSimulator btcOnlyConfig 1000 [btcTick 1 100, btcTick 2 10]).peakValueEur ∧
    (runSimulator btcOnlyConfig 1000 crashRecoverTicks).trades.length = 2 := by
  decide

unseal Rat.add Rat.mul Rat.inv Rat.sub in
/-- C3 counterexample: with `maxTradePercent = 0` and minimum trade size 0,
one flat-price tick emits three `SimulatedTrade`s (of zero EUR amount) — the
trade sequence is not empty, because the clamp to
`totalValue * maxTradePercent = 0` happens after the dust filter. -/
theorem zeroMaxTrade_trades_not_empty :
    (runSimulator zeroTradeConfig 1000 [tickFlat]).trades.length = 3 ∧
    (runSimulator zeroTradeConfig 1000 [tickFlat]).trades ≠ [] := by
  decide

unseal Rat.add Rat.mul Rat.inv Rat.sub in
/-- C4 counterexample: advisory weights are normalized without any floor at
zero, so an advisory mapping containing a negative value yields a negative
target weight. -/
theorem targetWeights_negative_advisory :
    getRec
      (calculateTargetWeights ["BTC-EUR", "ETH-EUR", "SOL-EUR"] [] [] []
        (some [("BTC-EUR", -1), ("ETH-EUR", 2)]))
      "BTC-EUR" 0 < 0 := by
  decide

/-- C7 counterexample: `getRecentCandles` keeps the data fetcher's descending
(most-recent-first) order — the window handed to the simulator is not in
ascending chronological order. -/
theorem getRecentCandles_not_ascending :
    (getRecentCandles demoCandles 40 24).map (·.start) = [30, 20, 10] ∧
    ¬ List.Sorted (· ≤ ·) ((getRecentCandles demoCandles 40 24).map (·.start)) := by
  decide

unseal Rat.add Rat.mul Rat.inv Rat.sub in
/-- C10: a reachable two-tick run (equal-weight buy-in at flat prices, then a
BTC rally) in which the last planned BUY exceeds the remaining EUR balance;
`executeTrade` performs no balance-coverage check, leaving a negative EUR
balance. -/
theorem simulator_allows_negative_eur :
    getRec (runSimulator demoConfig 1000 [tickFlat, tickBtcRally]).balances "EUR" 0 < 0 ∧
    ((runSimulator demoConfig 1000 [tickFlat, tickBtcRally]).trades.getLast?).map
        (·.side) = some Side.BUY := by
  decide

/-- Helper: the `getRecentCandles` loop collects, in order, the candles with
`start ≤ ts`, stopping once `count` have been collected. -/
theorem grcLoop_eq (ts : ℤ) (count : ℕ) (cs : List Candle) : ∀ acc : List Candle,
    acc.length < count →
    grcLoop ts count acc cs =
      acc ++ (cs.filter (fun c => c.start ≤ ts)).take (count - acc.length) := by
  induction cs with
  | nil => intro acc _; simp [grcLoop]
  | cons c rest ih =>
    intro acc h
    rw [grcLoop]
    by_cases hc : c.start ≤ ts
    · simp only [hc, if_true]
      by_cases hstop : count ≤ (acc ++ [c]).length
      · rw [if_pos hstop]
        have hcount : count - acc.length = 1 := by
          simp only [List.length_append, List.length_singleton] at hstop; omega
        rw [List.filter_cons_of_pos (by simpa using hc), hcount]
        simp
      · have h1 : (acc ++ [c]).length < count := by omega
        rw [if_neg hstop, ih _ h1]
        have h2 : count - acc.length = (count - (acc ++ [c]).length) + 1 := by
          simp only [List.length_append, List.length_singleton] at *; omega
        simp [List.filter_cons, hc, h2, List.take_succ_cons]
    · simp only [hc, if_false]
      rw [ih _ h]
      simp [List.filter_cons, hc]

/-- Helper: for a positive `count`, `getRecentCandles` is the first `count`
candles of the at-or-before-`ts` filter, in input order. -/
theorem getRecentCandles_eq (candles : List Candle) (ts : ℤ) (count : ℕ)
    (h : 1 ≤ count) :
    getRecentCandles candles ts count =
      (candles.filter (fun c => c.start ≤ ts)).take count := by
  rw [getRecentCandles, grcLoop_eq ts count candles [] (by simpa using h)]
  simp

/-- C7 (amended): the per-pair candle window handed to the simulator keeps
the data source's descending (most-recent-first) order — no normalization to
ascending order happens — and contains no look-ahead: on a
descending-ordered input, `getRecentCandles` returns a descending-ordered
window of at most `count` candles, every one of which has
`start ≤ timestamp`. -/
theorem getRecentCandles_descending_no_lookahead
    (candles : List Candle) (ts : ℤ) (count : ℕ)
    (hcount : 1 ≤ count)
    (hdesc : List.Pairwise (fun a b => b.start ≤ a.start) candles) :
    List.Pairwise (fun a b => b.start ≤ a.start) (getRecentCandles candles ts count) ∧
    (∀ c ∈ getRecentCandles candles ts count, c.start ≤ ts) ∧
    (getRecentCandles candles ts count).length ≤ count := by
  rw [getRecentCandles_eq candles ts count hcount]
  refine ⟨?_, ?_, ?_⟩
  · exact (hdesc.filter _).sublist (List.take_sublist _ _)
  · intro c hc
    have hmem := (List.take_sublist _ _).mem hc
    rw [List.mem_filter] at hmem
    simpa using hmem.2
  · exact List.length_take_le _ _

/-- Witness for C7 (amended) on a concrete descending three-candle history
and the driver's window size 24. -/
theorem getRecentCandles_descending_no_lookahead_witness :
    (1 ≤ 24 ∧ List.Pairwise (fun a b => b.start ≤ a.start) demoCandles) ∧
    (List.Pairwise (fun a b => b.start ≤ a.start) (getRecentCandles demoCandles 40 24) ∧
     (∀ c ∈ getRecentCandles demoCandles 40 24, c.start ≤ 40) ∧
     (getRecentCandles demoCandles 40 24).length ≤ 24) :=
  ⟨⟨by decide, by decide⟩,
   getRecentCandles_descending_no_lookahead demoCandles 40 24 (by decide) (by decide)⟩

/-- Helper: every coin named by `COIN_FOR_PAIR` has a zero balance in the
initial simulator state. -/
theorem coinForPair_initial_balance_zero (c : ℚ) {pair coin : String}
    (h : coinForPair pair = some coin) :
    getRec (initialSimulatorState c).balances coin 0 = 0 := by
  unfold coinForPair at h
  split_ifs at h <;> (injection h with h; subst h; rfl)

/-- Helper: the initial portfolio (all capital in EUR) is worth exactly the
initial capital at any price cross-section. -/
theorem computePortfolioValue_initial (c : ℚ) (prices : List (String × ℚ)) :
    computePortfolioValue (initialSimulatorState c).balances prices = c := by
  unfold computePortfolioValue
  have : ∀ (ps : List (String × ℚ)) (acc : ℚ),
      ps.foldl (fun total kv =>
        match coinForPair kv.1 with
        | some coin => total + getRec (initialSimulatorState c).balances coin 0 * kv.2
        | none => total) acc = acc := by
    intro ps
    induction ps with
    | nil => intro acc; rfl
    | cons kv rest ih =>
      intro acc
      rw [List.foldl_cons]
      cases hc : coinForPair kv.1 with
      | none => simp only [hc]; exact ih acc
      | some coin =>
        simp only [hc, coinForPair_initial_balance_zero c hc, zero_mul, add_zero]
        exact ih acc
  exact this prices _

/-- Helper: with `maxTradePercent = 0`, every planned rebalance leg is
clamped to a zero EUR amount. -/
theorem rebalance_zero_max (cw tw : List (String × ℚ)) (tv : ℚ)
    (pr : List (String × ℚ)) (mts : ℚ) :
    ∀ t ∈ computeRebalanceTrades cw tw tv pr mts 0, t.amountEur = 0 := by
  unfold computeRebalanceTrades
  suffices h : ∀ (tws : List (String × ℚ)) (acc : List RebalanceTrade),
      (∀ t ∈ acc, t.amountEur = 0) →
      ∀ t ∈ tws.foldl (fun trades kv =>
        if |(kv.2 - getRec cw kv.1 0) * tv| < mts then trades
        else trades ++ [{ pair := kv.1,
                          side := if (kv.2 - getRec cw kv.1 0) * tv > 0 then Side.BUY else Side.SELL,
                          amountEur := min |(kv.2 - getRec cw kv.1 0) * tv| (tv * 0) }]) acc,
        t.amountEur = 0 by
    exact h tw [] (by simp)
  intro tws
  induction tws with
  | nil => intro acc hacc; simpa using hacc
  | cons kv rest ih =>
    intro acc hacc
    rw [List.foldl_cons]
    by_cases hlt : |(kv.2 - getRec cw kv.1 0) * tv| < mts
    · rw [if_pos hlt]; exact ih acc hacc
    · rw [if_neg hlt]
      refine ih _ ?_
      intro t ht
      rcases List.mem_append.1 ht with h1 | h2
      · exact hacc t h1
      · simp only [List.mem_singleton] at h2
        subst h2
        show min |(kv.2 - getRec cw kv.1 0) * tv| (tv * 0) = 0
        rw [mul_zero]
        exact min_eq_right (abs_nonneg _)

/-- Helper: writing a zero balance back to a `COIN_FOR_PAIR` coin leaves the
initial balance record unchanged. -/
theorem setRec_initial_self (c : ℚ) {pair coin : String}
    (h : coinForPair pair = some coin) :
    setRec (initialSimulatorState c).balances coin 0 = (initialSimulatorState c).balances := by
  unfold coinForPair at h
  split_ifs at h <;> (injection h with h; subst h; rfl)

/-- Helper: executing a zero-amount trade leaves the initial balances
unchanged and appends only a zero-amount trade record. -/
theorem exec_zero_preserves (c : ℚ) (st : SimulatorState) (ts : ℤ)
    (pair : String) (side : Side) (price : ℚ)
    (hb : st.balances = (initialSimulatorState c).balances)
    (htr : ∀ t ∈ st.trades, t.amountEur = 0) :
    (TradeSimulator.executeTrade st ts pair side 0 price).balances =
      (initialSimulatorState c).balances ∧
    (∀ t ∈ (TradeSimulator.executeTrade st ts pair side 0 price).trades,
      t.amountEur = 0) ∧
    (TradeSimulator.executeTrade st ts pair side 0 price).snapshots =
      st.snapshots := by
  unfold TradeSimulator.executeTrade
  cases hcoin : coinForPair pair with
  | none => exact ⟨hb, htr, rfl⟩
  | some coin =>
    have hz : getRec (initialSimulatorState c).balances coin 0 = 0 :=
      coinForPair_initial_balance_zero c hcoin
    have heur : setRec (initialSimulatorState c).balances "EUR"
        (getRec (initialSimulatorState c).balances "EUR" 0) =
        (initialSimulatorState c).balances := by
      rfl
    refine ⟨?_, ?_, rfl⟩
    · cases side with
      | BUY =>
        simp only [hb, sub_zero, heur, hz, zero_div, add_zero]
        exact setRec_initial_self c hcoin
      | SELL =>
        simp only [hb, add_zero, heur, hz, zero_div, sub_zero]
        exact setRec_initial_self c hcoin
    · intro t ht
      simp only [List.mem_append, List.mem_singleton] at ht
      rcases ht with h1 | h2
      · exact htr t h1
      · subst h2; rfl

/-- Helper: `recordSnapshot` on the initial balances appends a snapshot worth
exactly the initial capital. -/
theorem recordSnapshot_preserves (c : ℚ) (st : SimulatorState) (ts : ℤ)
    (prices : List (String × ℚ))
    (hb : st.balances = (initialSimulatorState c).balances)
    (htr : ∀ t ∈ st.trades, t.amountEur = 0)
    (hsn : ∀ s ∈ st.snapshots, s.totalValueEur = c) :
    (TradeSimulator.recordSnapshot st ts prices).balances =
      (initialSimulatorState c).balances ∧
    (∀ t ∈ (TradeSimulator.recordSnapshot st ts prices).trades, t.amountEur = 0) ∧
    (∀ s ∈ (TradeSimulator.recordSnapshot st ts prices).snapshots,
      s.totalValueEur = c) := by
  unfold TradeSimulator.recordSnapshot
  refine ⟨hb, htr, ?_⟩
  intro s hs
  simp only [List.mem_append, List.mem_singleton] at hs
  rcases hs with h1 | h2
  · exact hsn s h1
  · subst h2
    show computePortfolioValue st.balances prices = c
    rw [hb]
    exact computePortfolioValue_initial c prices

/-- Helper: executing a sequence of zero-amount trades preserves the initial
balances, records only zero-amount trades and leaves snapshots unchanged. -/
theorem foldl_exec_zero (c : ℚ) (ts : ℤ) (prices : List (String × ℚ)) :
    ∀ (T : List RebalanceTrade) (st : SimulatorState),
      (∀ t ∈ T, t.amountEur = 0) →
      st.balances = (initialSimulatorState c).balances →
      (∀ t ∈ st.trades, t.amountEur = 0) →
      (T.foldl (fun s t =>
        TradeSimulator.executeTrade s ts t.pair t.side t.amountEur
          (getRec prices t.pair 0)) st).balances =
        (initialSimulatorState c).balances ∧
      (∀ t ∈ (T.foldl (fun s t =>
        TradeSimulator.executeTrade s ts t.pair t.side t.amountEur
          (getRec prices t.pair 0)) st).trades, t.amountEur = 0) ∧
      (T.foldl (fun s t =>
        TradeSimulator.executeTrade s ts t.pair t.side t.amountEur
          (getRec prices t.pair 0)) st).snapshots = st.snapshots := by
  intro T
  induction T with
  | nil => intro st _ hb htr; exact ⟨hb, htr, rfl⟩
  | cons t rest ih =>
    intro st hT hb htr
    rw [List.foldl_cons]
    have ht0 : t.amountEur = 0 := hT t (List.mem_cons_self t rest)
    rw [ht0]
    obtain ⟨hb2, htr2, hsn2⟩ := exec_zero_preserves c st ts t.pair t.side
      (getRec prices t.pair 0) hb htr
    obtain ⟨hb3, htr3, hsn3⟩ := ih _ (fun x hx => hT x (List.mem_cons_of_mem t hx)) hb2 htr2
    exact ⟨hb3, htr3, hsn3.trans hsn2⟩

/-- Helper: one `processCandle` step under `maxTradePercent = 0` preserves
the zero-trading invariant. -/
theorem processCandle_zero_max (config : SimulatorConfig)
    (hmax : config.strategyParams.maxTradePercent = 0) (c : ℚ)
    (st : SimulatorState) (ts : ℤ) (prices : List (String × ℚ))
    (candlesMap : List (String × List Candle))
    (hb : st.balances = (initialSimulatorState c).balances)
    (htr : ∀ t ∈ st.trades, t.amountEur = 0)
    (hsn : ∀ s ∈ st.snapshots, s.totalValueEur = c) :
    (TradeSimulator.processCandle config st ts prices candlesMap).balances =
      (initialSimulatorState c).balances ∧
    (∀ t ∈ (TradeSimulator.processCandle config st ts prices candlesMap).trades,
      t.amountEur = 0) ∧
    (∀ s ∈ (TradeSimulator.processCandle config st ts prices candlesMap).snapshots,
      s.totalValueEur = c) := by
  unfold TradeSimulator.processCandle
  simp only []
  split_ifs with hdd hcd
  · exact recordSnapshot_preserves c _ ts prices hb htr hsn
  · exact recordSnapshot_preserves c _ ts prices hb htr hsn
  · rw [hmax]
    have h2 := foldl_exec_zero c ts prices
      (computeRebalanceTrades (computeCurrentWeights st.balances prices)
        (TradeSimulator.calculateTargetWeights config prices candlesMap)
        (computePortfolioValue st.balances prices) prices config.minTradeSizeEur 0)
      { st with peakValueEur := max st.peakValueEur (computePortfolioValue st.balances prices) }
      (rebalance_zero_max _ _ _ prices config.minTradeSizeEur) hb htr
    refine recordSnapshot_preserves c _ ts prices h2.1 h2.2.1 ?_
    intro s hs
    rw [h2.2.2] at hs
    exact hsn s hs

/-- C3 (amended): a backtest run whose strategy has `maxTradePercent = 0`
never moves any balance: every recorded `SimulatedTrade` has `amountEur = 0`
(the trade sequence need not be empty — zero-amount legs pass the dust
filter), the balances remain the initial all-EUR balances, and every snapshot
has `totalValueEur` equal to `initialCapitalEur` (flat equity curve).  The
positivity hypothesis on prices keeps the run inside the region where the
rational model coincides with the JS float semantics. -/
theorem runSimulator_zero_max (config : SimulatorConfig)
    (hmax : config.strategyParams.maxTradePercent = 0) (c : ℚ)
    (ticks : List Tick)
    (_hpos : ∀ tk ∈ ticks, ∀ pv ∈ tk.prices, 0 < pv.2) :
    (∀ t ∈ (runSimulator config c ticks).trades, t.amountEur = 0) ∧
    (runSimulator config c ticks).balances = (initialSimulatorState c).balances ∧
    (∀ s ∈ (runSimulator config c ticks).snapshots, s.totalValueEur = c) := by
  unfold runSimulator
  suffices h : ∀ (tks : List Tick) (st : SimulatorState),
      st.balances = (initialSimulatorState c).balances →
      (∀ t ∈ st.trades, t.amountEur = 0) →
      (∀ s ∈ st.snapshots, s.totalValueEur = c) →
      (tks.foldl (fun st tick =>
        TradeSimulator.processCandle config st tick.timestamp tick.prices
          tick.candlesMap) st).balances = (initialSimulatorState c).balances ∧
      (∀ t ∈ (tks.foldl (fun st tick =>
        TradeSimulator.processCandle config st tick.timestamp tick.prices
          tick.candlesMap) st).trades, t.amountEur = 0) ∧
      (∀ s ∈ (tks.foldl (fun st tick =>
        TradeSimulator.processCandle config st tick.timestamp tick.prices
          tick.candlesMap) st).snapshots, s.totalValueEur = c) by
    obtain ⟨h1, h2, h3⟩ := h ticks (initialSimulatorState c) rfl (by simp [initialSimulatorState]) (by simp [initialSimulatorState])
    exact ⟨h2, h1, h3⟩
  intro tks
  induction tks with
  | nil => intro st hb htr hsn; exact ⟨hb, htr, hsn⟩
  | cons tk rest ih =>
    intro st hb htr hsn
    rw [List.foldl_cons]
    obtain ⟨hb2, htr2, hsn2⟩ := processCandle_zero_max config hmax c st
      tk.timestamp tk.prices tk.candlesMap hb htr hsn
    exact ih _ hb2 htr2 hsn2

/-- Witness for C3 (amended): the zero-`maxTradePercent` configuration on one
flat-price tick. -/
theorem runSimulator_zero_max_witness :
    (zeroTradeConfig.strategyParams.maxTradePercent = 0 ∧
     ∀ tk ∈ [tickFlat], ∀ pv ∈ tk.prices, 0 < pv.2) ∧
    ((∀ t ∈ (runSimulator zeroTradeConfig 1000 [tickFlat]).trades, t.amountEur = 0) ∧
     (runSimulator zeroTradeConfig 1000 [tickFlat]).balances =
       (initialSimulatorState 1000).balances ∧
     (∀ s ∈ (runSimulator zeroTradeConfig 1000 [tickFlat]).snapshots,
       s.totalValueEur = 1000)) :=
  ⟨⟨by decide, by decide⟩,
   runSimulator_zero_max zeroTradeConfig rfl 1000 [tickFlat] (by decide)⟩

/-- Helper: assigning a fresh key appends it. -/
theorem setRec_fresh {α : Type} (r : List (String × α)) (k : String) (v : α)
    (h : ∀ kv ∈ r, kv.1 ≠ k) : setRec r k v = r ++ [(k, v)] := by
  unfold setRec
  rw [if_neg]
  simp only [List.any_eq_true, not_exists, not_and]
  intro kv hkv
  simpa using h kv hkv

/-- Helper: building a record over duplicate-free keys yields one entry per
key, in order. -/
theorem foldl_setRec_eq_map (f : String → ℚ) :
    ∀ (pairs : List String) (acc : List (String × ℚ)),
    (∀ p ∈ pairs, ∀ kv ∈ acc, kv.1 ≠ p) → pairs.Nodup →
    pairs.foldl (fun r p => setRec r p (f p)) acc =
      acc ++ pairs.map (fun p => (p, f p)) := by
  intro pairs
  induction pairs with
  | nil => intro acc _ _; simp
  | cons p rest ih =>
    intro acc hfresh hnd
    rw [List.foldl_cons, setRec_fresh acc p (f p) (hfresh p (List.mem_cons_self p rest))]
    rw [ih (acc ++ [(p, f p)]) ?_ (List.nodup_cons.1 hnd).2]
    · simp
    · intro q hq kv hkv
      rcases List.mem_append.1 hkv with h1 | h2
      · exact hfresh q (List.mem_cons_of_mem p hq) kv h1
      · simp only [List.mem_singleton] at h2
        subst h2
        intro hpq
        have hpq2 : p = q := hpq
        exact (List.nodup_cons.1 hnd).1 (hpq2 ▸ hq)

/-- Helper: looking up a key in a record built by mapping over the keys. -/
theorem lookupRec_map_self (f : String → ℚ) :
    ∀ (pairs : List String) (p : String), p ∈ pairs →
    lookupRec (pairs.map (fun q => (q, f q))) p = some (f p) := by
  intro pairs
  induction pairs with
  | nil => intro p hp; cases hp
  | cons a rest ih =>
    intro p hp
    by_cases hap : a = p
    · subst hap
      simp [lookupRec, List.find?]
    · rcases List.mem_cons.1 hp with h1 | h2
      · exact absurd h1.symm hap
      · have := ih p h2
        unfold lookupRec at this ⊢
        rw [List.map_cons, List.find?_cons_of_neg]
        · exact this
        · simpa using hap

/-- Helper: `getRec` on a record built by mapping over the keys. -/
theorem getRec_map_self (f : String → ℚ) (pairs : List String) (p : String)
    (hp : p ∈ pairs) :
    getRec (pairs.map (fun q => (q, f q))) p 0 = f p := by
  rw [getRec, lookupRec_map_self f pairs p hp, Option.getD_some]

/-- Helper: the source's `reduce`-style accumulation is the list sum. -/
theorem foldl_add_map (g : String → ℚ) :
    ∀ (l : List String) (a : ℚ),
    l.foldl (fun s p => s + g p) a = a + (l.map g).sum := by
  intro l
  induction l with
  | nil => intro a; simp
  | cons p rest ih => intro a; rw [List.foldl_cons, ih]; simp [add_assoc]

/-- Helper: a sum of termwise quotients by a common divisor. -/
theorem sum_map_div (g : String → ℚ) (T : ℚ) :
    ∀ l : List String, (l.map (fun p => g p / T)).sum = (l.map g).sum / T := by
  intro l
  induction l with
  | nil => simp
  | cons p rest ih => simp [ih, add_div]

/-- Helper: `normalizeWeights` over duplicate-free pairs is equal weighting
when the total is zero, else the termwise quotient by the total. -/
theorem normalizeWeights_eq (w : List (String × ℚ)) (pairs : List String)
    (hnd : pairs.Nodup) :
    normalizeWeights w pairs =
      if (pairs.map (fun p => getRec w p 0)).sum = 0 then
        pairs.map (fun p => (p, (1 : ℚ) / pairs.length))
      else
        pairs.map (fun p =>
          (p, getRec w p 0 / (pairs.map (fun q => getRec w q 0)).sum)) := by
  simp only [normalizeWeights]
  rw [foldl_add_map (fun p => getRec w p 0) pairs 0, zero_add]
  split_ifs with h
  · rw [foldl_setRec_eq_map (fun _ => (1 : ℚ) / pairs.length) pairs [] (by simp) hnd]
    simp
  · rw [foldl_setRec_eq_map
      (fun p => getRec w p 0 / (pairs.map (fun q => getRec w q 0)).sum) pairs []
      (by simp) hnd]
    simp

/-- Helper: the values of `normalizeWeights` sum to exactly 1 for a nonempty
duplicate-free pair list. -/
theorem normalizeWeights_sum_one (w : List (String × ℚ)) (pairs : List String)
    (hne : pairs ≠ []) (hnd : pairs.Nodup) :
    ((normalizeWeights w pairs).map (·.2)).sum = 1 := by
  have hlen : (pairs.length : ℚ) ≠ 0 :=
    Nat.cast_ne_zero.mpr (fun h0 => hne (List.length_eq_zero.1 h0))
  rw [normalizeWeights_eq w pairs hnd]
  split_ifs with h
  · rw [List.map_map]
    have hcomp : ((fun x : String × ℚ => x.2) ∘ fun p => (p, (1 : ℚ) / pairs.length)) =
        fun _ => (1 : ℚ) / pairs.length := rfl
    rw [hcomp, List.map_const', List.sum_replicate, nsmul_eq_mul]
    field_simp
  · rw [List.map_map]
    have hcomp : ((fun x : String × ℚ => x.2) ∘ fun p =>
        (p, getRec w p 0 / (pairs.map (fun q => getRec w q 0)).sum)) =
        fun p => getRec w p 0 / (pairs.map (fun q => getRec w q 0)).sum := rfl
    rw [hcomp, sum_map_div (fun p => getRec w p 0) _ pairs]
    exact div_self h

/-- Helper: raw indicator-path weights are floored at 0. -/
theorem rawStrategyWeight_nonneg (pairs : List String)
    (candles : List (String × List Candle)) (baseWeights : List (String × ℚ))
    (pair : String) : 0 ≤ rawStrategyWeight pairs candles baseWeights pair := by
  simp only [rawStrategyWeight]
  exact le_max_left 0 _

/-- Helper: the indicator path of the weight calculator sums to 1, is
nonnegative, and degenerates to equal weighting when all raw weights are 0. -/
theorem indicator_path_props (pairs : List String)
    (candles : List (String × List Candle)) (baseWeights : List (String × ℚ))
    (hne : pairs ≠ []) (hnd : pairs.Nodup) :
    ((normalizeWeights (pairs.foldl (fun raw pair =>
        setRec raw pair (rawStrategyWeight pairs candles baseWeights pair)) [])
        pairs).map (·.2)).sum = 1 ∧
    (∀ v ∈ (normalizeWeights (pairs.foldl (fun raw pair =>
        setRec raw pair (rawStrategyWeight pairs candles baseWeights pair)) [])
        pairs).map (·.2), 0 ≤ v) ∧
    ((∀ p ∈ pairs, rawStrategyWeight pairs candles baseWeights p = 0) →
      normalizeWeights (pairs.foldl (fun raw pair =>
        setRec raw pair (rawStrategyWeight pairs candles baseWeights pair)) [])
        pairs = pairs.map (fun p => (p, (1 : ℚ) / pairs.length))) := by
  rw [foldl_setRec_eq_map (rawStrategyWeight pairs candles baseWeights) pairs []
    (by simp) hnd, List.nil_append]
  have hgets : ∀ p ∈ pairs,
      getRec (pairs.map (fun q => (q, rawStrategyWeight pairs candles baseWeights q))) p 0 =
        rawStrategyWeight pairs candles baseWeights p :=
    fun p hp => getRec_map_self _ pairs p hp
  refine ⟨normalizeWeights_sum_one _ pairs hne hnd, ?_, ?_⟩
  · rw [normalizeWeights_eq _ pairs hnd]
    split_ifs with h
    · intro v hv
      rw [List.map_map, List.mem_map] at hv
      obtain ⟨p, _, hp2⟩ := hv
      rw [← hp2]
      show (0 : ℚ) ≤ 1 / (pairs.length : ℚ)
      positivity
    · intro v hv
      rw [List.map_map, List.mem_map] at hv
      obtain ⟨p, hp1, hp2⟩ := hv
      rw [← hp2]
      show (0 : ℚ) ≤ getRec _ p 0 / _
      have hS : (0 : ℚ) ≤ (pairs.map (fun q =>
          getRec (pairs.map (fun q => (q, rawStrategyWeight pairs candles baseWeights q))) q 0)).sum := by
        apply List.sum_nonneg
        intro x hx
        rw [List.mem_map] at hx
        obtain ⟨q, hq1, hq2⟩ := hx
        rw [← hq2, hgets q hq1]
        exact rawStrategyWeight_nonneg pairs candles baseWeights q
      rw [hgets p hp1]
      exact div_nonneg (rawStrategyWeight_nonneg pairs candles baseWeights p) hS
  · intro h0
    rw [normalizeWeights_eq _ pairs hnd, if_pos]
    rw [List.map_congr_left (fun p hp => (hgets p hp).trans (h0 p hp))]
    simp

/-- C4 (amended): for every nonempty duplicate-free pair list, the weight
mapping returned by the weight calculator sums to exactly 1 (hence within
1e-9); when no advisory weights are supplied (absent or empty), additionally
no value is negative, and if all raw (floored) weights are 0 the result is
exactly the equal weighting `1/n`.  (With advisory weights present the
no-negative-value part fails — see the counterexample — since advisory
values are normalized without flooring.) -/
theorem targetWeights_normalized (pairs : List String)
    (prices : List (String × ℚ)) (candles : List (String × List Candle))
    (baseWeights : List (String × ℚ)) (aiWeights : Option (List (String × ℚ)))
    (hne : pairs ≠ []) (hnd : pairs.Nodup) :
    ((calculateTargetWeights pairs prices candles baseWeights aiWeights).map
      (·.2)).sum = 1 ∧
    ((aiWeights = none ∨ aiWeights = some []) →
      (∀ v ∈ (calculateTargetWeights pairs prices candles baseWeights
        aiWeights).map (·.2), 0 ≤ v) ∧
      ((∀ p ∈ pairs, rawStrategyWeight pairs candles baseWeights p = 0) →
        calculateTargetWeights pairs prices candles baseWeights aiWeights =
          pairs.map (fun p => (p, (1 : ℚ) / pairs.length)))) := by
  obtain ⟨hsum, hnn, heq⟩ := indicator_path_props pairs candles baseWeights hne hnd
  cases aiWeights with
  | none => exact ⟨hsum, fun _ => ⟨hnn, heq⟩⟩
  | some w =>
    by_cases hw : w.length > 0
    · refine ⟨?_, ?_⟩
      · simp only [calculateTargetWeights, hw, if_pos]
        exact normalizeWeights_sum_one w pairs hne hnd
      · rintro (h | h)
        · cases h
        · injection h with h
          subst h
          simp at hw
    · have hw0 : w = [] := List.length_eq_zero.1 (by omega)
      subst hw0
      simp only [calculateTargetWeights, List.length_nil, gt_iff_lt,
        lt_irrefl, if_false]
      exact ⟨hsum, fun _ => ⟨hnn, heq⟩⟩

/-- Witness for C4 (amended) on the three configured pairs with no advisory
weights. -/
theorem targetWeights_normalized_witness :
    ((["BTC-EUR", "ETH-EUR", "SOL-EUR"] : List String) ≠ [] ∧
     (["BTC-EUR", "ETH-EUR", "SOL-EUR"] : List String).Nodup) ∧
    ((calculateTargetWeights ["BTC-EUR", "ETH-EUR", "SOL-EUR"] [] [] []
        none).map (·.2)).sum = 1 :=
  ⟨⟨by decide, by decide⟩,
   (targetWeights_normalized ["BTC-EUR", "ETH-EUR", "SOL-EUR"] [] [] [] none
     (by decide) (by decide)).1⟩

/-- Helper: fewer than two snapshots yield no returns. -/
theorem snapshotReturns_short (values : List ℝ) (h : values.length < 2) :
    snapshotReturns values = [] := by
  match values with
  | [] => simp [snapshotReturns]
  | [a] => simp [snapshotReturns]
  | a :: b :: rest => simp at h; omega

/-- Helper: the mean of no returns is 0. -/
theorem listMean_nil : listMean ([] : List ℝ) = 0 := by simp [listMean]

/-- Helper: the standard deviation of no returns is 0. -/
theorem listStdDev_nil : listStdDev ([] : List ℝ) = 0 := by
  simp [listStdDev, Real.sqrt_zero]

/-- Helper: branch characterization of `calculateSharpeRatio` — at zero
standard deviation the result is `3` for positive mean and `0` otherwise
(this also covers the early returns for short or unusable snapshot
sequences, whose empty return list has zero mean and deviation); otherwise
it is the annualized ratio clamped to `[-3, 3]`. -/
theorem sharpe_char (values : List ℝ) :
    (listStdDev (snapshotReturns values) = 0 →
      calculateSharpeRatio values =
        if 0 < listMean (snapshotReturns values) then 3 else 0) ∧
    (listStdDev (snapshotReturns values) ≠ 0 →
      calculateSharpeRatio values =
        max (-3) (min 3 (listMean (snapshotReturns values) /
          listStdDev (snapshotReturns values) * Real.sqrt (6 * 365)))) := by
  simp only [calculateSharpeRatio]
  by_cases h1 : values.length < 2
  · have hret : snapshotReturns values = [] := snapshotReturns_short values h1
    rw [if_pos h1]
    constructor
    · intro _
      rw [hret, listMean_nil, if_neg (lt_irrefl 0)]
    · intro hstd
      exact absurd (hret ▸ listStdDev_nil) hstd
  · rw [if_neg h1]
    by_cases h2 : (snapshotReturns values).length = 0
    · have hret : snapshotReturns values = [] := List.length_eq_zero.1 h2
      rw [if_pos h2]
      constructor
      · intro _
        rw [hret, listMean_nil, if_neg (lt_irrefl 0)]
      · intro hstd
        exact absurd (hret ▸ listStdDev_nil) hstd
    · rw [if_neg h2]
      by_cases h3 : listStdDev (snapshotReturns values) = 0
      · rw [if_pos h3]
        exact ⟨fun _ => rfl, fun hstd => absurd h3 hstd⟩
      · rw [if_neg h3]
        exact ⟨fun h => absurd h h3, fun _ => rfl⟩

/-- Helper: length of the constant-return sequence. -/
theorem geomSeq_length (r : ℝ) : ∀ (n : ℕ) (v : ℝ), (geomSeq v r n).length = n := by
  intro n
  induction n with
  | zero => intro v; rfl
  | succ k ih => intro v; simp [geomSeq, ih]

/-- Helper: a constant-fractional-return value sequence yields a constant
return list. -/
theorem geom_returns (r : ℝ) (hr : 0 < r) :
    ∀ (k : ℕ) (v : ℝ), 0 < v →
    snapshotReturns (geomSeq v r (k + 2)) = List.replicate (k + 1) r := by
  intro k
  induction k with
  | zero =>
    intro v hv
    show snapshotReturns [v, v * (1 + r)] = [r]
    have hrat : (v * (1 + r) - v) / v = r := by field_simp; ring
    simp [snapshotReturns, if_pos hv, hrat]
  | succ k ih =>
    intro v hv
    have hv2 : 0 < v * (1 + r) := mul_pos hv (by linarith)
    have hstep : geomSeq v r (k + 3) =
        v :: v * (1 + r) :: geomSeq (v * (1 + r) * (1 + r)) r (k + 1) := rfl
    rw [hstep]
    have htail := ih (v * (1 + r)) hv2
    have htail2 : snapshotReturns (v * (1 + r) ::
        geomSeq (v * (1 + r) * (1 + r)) r (k + 1)) = List.replicate (k + 1) r := htail
    rw [snapshotReturns, if_pos hv, htail2]
    have hrat : (v * (1 + r) - v) / v = r := by field_simp; ring
    rw [hrat]
    rfl

/-- Helper: mean of a constant return list. -/
theorem listMean_replicate (n : ℕ) (r : ℝ) (hn : n ≠ 0) :
    listMean (List.replicate n r) = r := by
  simp only [listMean, List.sum_replicate, List.length_replicate, nsmul_eq_mul]
  field_simp

/-- Helper: a constant return list has zero standard deviation. -/
theorem listStdDev_replicate (n : ℕ) (r : ℝ) (hn : n ≠ 0) :
    listStdDev (List.replicate n r) = 0 := by
  simp only [listStdDev, listMean_replicate n r hn, List.map_replicate,
    sub_self, ne_eq, OfNat.ofNat_ne_zero, not_false_eq_true, zero_pow,
    List.sum_replicate, smul_zero, zero_div, Real.sqrt_zero]

/-- Helper: a constant-positive-return snapshot sequence scores exactly 3. -/
theorem sharpe_geom (v r : ℝ) (k : ℕ) (hv : 0 < v) (hr : 0 < r) :
    calculateSharpeRatio (geomSeq v r (k + 2)) = 3 := by
  have hret := geom_returns r hr k v hv
  have hstd : listStdDev (snapshotReturns (geomSeq v r (k + 2))) = 0 := by
    rw [hret]; exact listStdDev_replicate (k + 1) r (Nat.succ_ne_zero k)
  have hmean : 0 < listMean (snapshotReturns (geomSeq v r (k + 2))) := by
    rw [hret, listMean_replicate (k + 1) r (Nat.succ_ne_zero k)]; exact hr
  rw [(sharpe_char (geomSeq v r (k + 2))).1 hstd, if_pos hmean]

/-- C6: the Sharpe ratio is computed over the fractional returns between
consecutive snapshots: when their standard deviation is 0 it returns 3.0 for
positive mean and 0.0 otherwise; otherwise it returns
`(mean/stddev) * sqrt(6*365)` clamped to `[-3, 3]`; in particular every
constant-positive-return sequence (of at least two snapshots) yields exactly
3.0. -/
theorem sharpeRatio_spec :
    (∀ values : List ℝ,
      (listStdDev (snapshotReturns values) = 0 →
        calculateSharpeRatio values =
          if 0 < listMean (snapshotReturns values) then 3 else 0) ∧
      (listStdDev (snapshotReturns values) ≠ 0 →
        calculateSharpeRatio values =
          max (-3) (min 3 (listMean (snapshotReturns values) /
            listStdDev (snapshotReturns values) * Real.sqrt (6 * 365))))) ∧
    ∀ (v r : ℝ) (k : ℕ), 0 < v → 0 < r →
      calculateSharpeRatio (geomSeq v r (k + 2)) = 3 :=
  ⟨sharpe_char, sharpe_geom⟩

/-- Witness for C6 at the concrete sequence `[1, 2, 4]` (constant return 1). -/
theorem sharpeRatio_spec_witness :
    (0 : ℝ) < 1 ∧ calculateSharpeRatio (geomSeq 1 1 2) = 3 :=
  ⟨one_pos, sharpeRatio_spec.2 1 1 0 one_pos one_pos⟩

/-- Helper: persisting paper results changes no status. -/
theorem updatePaper_map_status (l : List Candidate) (id : ℕ) (s : ℚ) (d : ℤ) :
    (updateCandidatePaperResults l id s d).map (·.status) = l.map (·.status) := by
  unfold updateCandidatePaperResults
  rw [List.map_map]
  apply List.map_congr_left
  intro c _
  by_cases h : c.id = id <;> simp [h]

/-- Helper: persisting paper results changes no id. -/
theorem updatePaper_map_id (l : List Candidate) (id : ℕ) (s : ℚ) (d : ℤ) :
    (updateCandidatePaperResults l id s d).map (·.id) = l.map (·.id) := by
  unfold updateCandidatePaperResults
  rw [List.map_map]
  apply List.map_congr_left
  intro c _
  by_cases h : c.id = id <;> simp [h]

/-- Helper: every row after a paper-results update originates from a row with
the same id and status. -/
theorem updatePaper_mem (l : List Candidate) (id : ℕ) (s : ℚ) (d : ℤ)
    (c : Candidate) (hc : c ∈ updateCandidatePaperResults l id s d) :
    ∃ c₀ ∈ l, c₀.id = c.id ∧ c₀.status = c.status := by
  unfold updateCandidatePaperResults at hc
  rw [List.mem_map] at hc
  obtain ⟨c₀, hc₀, heq⟩ := hc
  refine ⟨c₀, hc₀, ?_⟩
  by_cases h : c₀.id = id
  · rw [if_pos h] at heq; subst heq; exact ⟨rfl, rfl⟩
  · rw [if_neg h] at heq; subst heq; exact ⟨rfl, rfl⟩

/-- Helper: after a paper-results update, the row with the updated id stores
the freshly computed days tested. -/
theorem updatePaper_days (l : List Candidate) (id : ℕ) (s : ℚ) (d : ℤ)
    (c : Candidate) (hc : c ∈ updateCandidatePaperResults l id s d)
    (hid : c.id = id) : c.paperDaysTested = d := by
  unfold updateCandidatePaperResults at hc
  rw [List.mem_map] at hc
  obtain ⟨c₀, _, heq⟩ := hc
  by_cases h : c₀.id = id
  · rw [if_pos h] at heq; subst heq; rfl
  · rw [if_neg h] at heq; subst heq; exact absurd hid h

/-- Helper: promoting an id absent from the table is a no-op. -/
theorem markPromoted_skip (pid : ℕ) (now : ℤ) :
    ∀ l : List Candidate, pid ∉ l.map (·.id) → markPromoted l pid now = l := by
  intro l
  induction l with
  | nil => intro _; rfl
  | cons c rest ih =>
    intro h
    simp only [List.map_cons, List.mem_cons, not_or] at h
    unfold markPromoted
    rw [List.map_cons]
    rw [if_neg (fun hc => h.1 hc.symm)]
    have := ih h.2
    unfold markPromoted at this
    rw [this]

/-- Helper: with duplicate-free ids, a promotion increases the number of
promoted rows by at most one. -/
theorem markPromoted_count (pid : ℕ) (now : ℤ) :
    ∀ l : List Candidate, (l.map (·.id)).Nodup →
    ((markPromoted l pid now).map (·.status)).count CandidateStatus.promoted ≤
      ((l.map (·.status)).count CandidateStatus.promoted) + 1 := by
  intro l
  induction l with
  | nil => intro _; simp [markPromoted]
  | cons c rest ih =>
    intro hnd
    rw [List.map_cons] at hnd
    obtain ⟨hfresh, hndr⟩ := List.nodup_cons.1 hnd
    unfold markPromoted
    rw [List.map_cons]
    by_cases h : c.id = pid
    · rw [if_pos h]
      have hskip : markPromoted rest pid now = rest :=
        markPromoted_skip pid now rest (fun hmem => hfresh (h ▸ hmem))
      unfold markPromoted at hskip
      rw [hskip]
      simp only [List.map_cons, List.count_cons]
      split_ifs <;> omega
    · rw [if_neg h]
      have := ih hndr
      unfold markPromoted at this
      simp only [List.map_cons, List.count_cons]
      split_ifs <;> omega

/-- Helper: an eligible candidate has at least `minPaperDays` days tested
(the reason list is empty only when every threshold check passes). -/
theorem meets_criteria_days (bs ps : ℚ) (days : ℤ) (dd : ℚ)
    (cr : PromotionCriteria)
    (h : (meetsPromotionCriteria bs ps days dd cr).1 = true) :
    cr.minPaperDays ≤ days := by
  by_contra hlt
  push_neg at hlt
  simp only [meetsPromotionCriteria, List.isEmpty_iff, List.append_eq_nil] at h
  rw [if_pos hlt] at h
  simp at h

/-- Helper: the promotion loop promotes at most one candidate and only with
enough paper days, for any oracle and any starting table. -/
theorem promoteLoop_safe (criteria : PromotionCriteria) (now : ℤ)
    (perf : ℕ → PaperPerf) :
    ∀ (todo cands : List Candidate) (config : TradingConfig),
    (cands.map (·.id)).Nodup →
    (((promoteLoop criteria now perf cands config todo).1.map (·.status)).count
        CandidateStatus.promoted ≤
      ((cands.map (·.status)).count CandidateStatus.promoted) + 1) ∧
    ∀ c ∈ (promoteLoop criteria now perf cands config todo).1,
      c.status = CandidateStatus.promoted →
      (∃ c₀ ∈ cands, c₀.id = c.id ∧ c₀.status = CandidateStatus.promoted) ∨
      criteria.minPaperDays ≤ c.paperDaysTested := by
  intro todo
  induction todo with
  | nil =>
    intro cands config _
    refine ⟨by simp [promoteLoop], ?_⟩
    intro c hc hst
    exact Or.inl ⟨c, hc, rfl, hst⟩
  | cons t rest ih =>
    intro cands config hnd
    unfold promoteLoop
    by_cases helig : (meetsPromotionCriteria (t.backtestScore.getD 0)
        (perf t.id).score (perf t.id).daysTested (perf t.id).maxDrawdown
        criteria).1 = true
    · rw [if_pos helig]
      simp only []
      set cands1 := updateCandidatePaperResults cands t.id (perf t.id).score
        (perf t.id).daysTested with hcands1
      have hnd1 : (cands1.map (·.id)).Nodup := by
        rw [hcands1, updatePaper_map_id]; exact hnd
      constructor
      · calc ((markPromoted cands1 t.id now).map (·.status)).count
              CandidateStatus.promoted
            ≤ ((cands1.map (·.status)).count CandidateStatus.promoted) + 1 :=
              markPromoted_count t.id now cands1 hnd1
          _ = ((cands.map (·.status)).count CandidateStatus.promoted) + 1 := by
              rw [hcands1, updatePaper_map_status]
      · intro c hc hst
        unfold markPromoted at hc
        rw [List.mem_map] at hc
        obtain ⟨c₀, hc₀, heq⟩ := hc
        by_cases hid : c₀.id = t.id
        · rw [if_pos hid] at heq
          right
          have hdays : c₀.paperDaysTested = (perf t.id).daysTested :=
            updatePaper_days cands t.id (perf t.id).score (perf t.id).daysTested
              c₀ hc₀ hid
          have : c.paperDaysTested = c₀.paperDaysTested := by rw [← heq]
          rw [this, hdays]
          exact meets_criteria_days _ _ _ _ criteria helig
        · rw [if_neg hid] at heq
          subst heq
          obtain ⟨c₁, hc₁, hcid, hcst⟩ := updatePaper_mem cands t.id
            (perf t.id).score (perf t.id).daysTested c₀ hc₀
          exact Or.inl ⟨c₁, hc₁, hcid, hcst.trans hst⟩
    · rw [if_neg helig]
      have hnd1 : ((updateCandidatePaperResults cands t.id (perf t.id).score
          (perf t.id).daysTested).map (·.id)).Nodup := by
        rw [updatePaper_map_id]; exact hnd
      obtain ⟨hcount, hmem⟩ := ih (updateCandidatePaperResults cands t.id
        (perf t.id).score (perf t.id).daysTested) config hnd1
      constructor
      · rw [updatePaper_map_status] at hcount
        exact hcount
      · intro c hc hst
        rcases hmem c hc hst with ⟨c₀, hc₀, hcid, hcst⟩ | hdays
        · obtain ⟨c₁, hc₁, h1, h2⟩ := updatePaper_mem cands t.id
            (perf t.id).score (perf t.id).daysTested c₀ hc₀
          exact Or.inl ⟨c₁, hc₁, h1.trans hcid, h2.trans hcst⟩
        · exact Or.inr hdays

/-- C8: in every invocation of `checkAndPromote` (over any paper-performance
oracle), at most one candidate transitions to `promoted` (the count of
promoted rows grows by at most one and the loop stops at the first success),
and every candidate promoted by the invocation has `paperDaysTested` at least
the criteria's `minPaperDays`. -/
theorem checkAndPromote_safe (criteria : PromotionCriteria) (now : ℤ)
    (perf : ℕ → PaperPerf) (candidates : List Candidate)
    (config : TradingConfig)
    (hnd : (candidates.map (·.id)).Nodup) :
    (((checkAndPromote criteria now perf candidates config).1.map
        (·.status)).count CandidateStatus.promoted ≤
      ((candidates.map (·.status)).count CandidateStatus.promoted) + 1) ∧
    ∀ c ∈ (checkAndPromote criteria now perf candidates config).1,
      c.status = CandidateStatus.promoted →
      (∃ c₀ ∈ candidates, c₀.id = c.id ∧
        c₀.status = CandidateStatus.promoted) ∨
      criteria.minPaperDays ≤ c.paperDaysTested := by
  unfold checkAndPromote
  exact promoteLoop_safe criteria now perf _ candidates config hnd

/-- Witness for C8 on a one-candidate table with a passing oracle. -/
theorem checkAndPromote_safe_witness :
    (([demoCandidate].map (·.id)).Nodup) ∧
    ((((checkAndPromote demoCriteria 0 demoPerf [demoCandidate]
        demoTradingConfig).1.map (·.status)).count CandidateStatus.promoted ≤
      (([demoCandidate].map (·.status)).count CandidateStatus.promoted) + 1) ∧
    ∀ c ∈ (checkAndPromote demoCriteria 0 demoPerf [demoCandidate]
        demoTradingConfig).1,
      c.status = CandidateStatus.promoted →
      (∃ c₀ ∈ [demoCandidate], c₀.id = c.id ∧
        c₀.status = CandidateStatus.promoted) ∨
      demoCriteria.minPaperDays ≤ c.paperDaysTested) :=
  ⟨by decide,
   checkAndPromote_safe demoCriteria 0 demoPerf [demoCandidate]
     demoTradingConfig (by decide)⟩
